import Mathlib

/-!
Shallow embedding of `postgresql_notification_listener/listener.py`.

The listener keeps a registry `self.callbacks : dict[str, set[Callback]]`
mapping channel names to sets of callbacks, issues `LISTEN`/`UNLISTEN`
commands on the database connection as channels gain or lose interest,
and dispatches inbound notifications to the registered callbacks.

Modelling choices:
* Callbacks are identity-comparable opaque values; we model them as `Nat`
  identifiers.  The behaviour of a callback (what it does when invoked) is
  given by an environment `Env : Nat → List CbAction`, where an `CbAction` is
  one of the listener's own mutation operations (the spec permits callbacks
  to subscribe/unsubscribe during their own invocation).
* The Python dict is insertion-ordered; we model it as an association list
  (`List (String × List Nat)`): a new key is appended at the end, deletion
  removes the entry, assignment to an existing key keeps its position.
* A Python set is modelled as a duplicate-free list; `set.add` is a no-op
  on an existing member, `set.remove` raises `KeyError` on a non-member.
* The connection is modelled by its observable effect: the sequence of
  `LISTEN`/`UNLISTEN` commands issued so far (`cmds`), plus a parameter
  `Conn : Cmd → Bool` telling which `connection.execute` calls raise.
* Callback invocations are recorded in a trace (`invoked`), each entry
  remembering the channel being dispatched, the callback identifier and the
  value of `last_notification` observed at the moment of the call.
* Python exceptions do not roll back earlier mutations, so every operation
  returns `Res`: either `ok` with the new state or `err` carrying the
  exception kind together with the state at the moment the exception was
  raised.
* CPython raises `RuntimeError` ("dictionary changed size during
  iteration") when a dict iterator observes a size different from the one
  at iterator creation; `execute_all_callbacks` iterates the live dict, so
  the embedding re-checks the registry size before every iteration step
  (including the exhaustion check), exactly as the CPython dict iterator
  does.
-/

/-- A command issued on the database connection. -/
inductive Cmd where
  | listen (channel : String)
  | unlisten (channel : String)
deriving DecidableEq

/-- The exception kinds the listener code can raise. -/
inductive Err where
  | keyError
  | runtimeError
  | connError
deriving DecidableEq

/-- A notification received from the connection (psycopg `Notify`). -/
structure Notify where
  channel : String
  payload : String
deriving DecidableEq

/-- One recorded callback invocation: the channel being dispatched, the
callback identifier, and the value of `last_notification` the callback
observes when it runs. -/
structure Invocation where
  channel : String
  cb : Nat
  seen : Option Notify
deriving DecidableEq

/-- A registry mutation a callback may perform during its own invocation. -/
inductive CbAction where
  | subscribeAct (channel : String) (cb : Nat)
  | unsubOneAct (channel : String) (cb : Nat)
  | unsubChannelAct (channel : String)
  | unsubAllAct
deriving DecidableEq

/-- The listener state: `last_notification` and `callbacks` are the object's
attributes; `cmds` is the log of commands issued on the connection and
`invoked` the trace of callback invocations (the observable effects). -/
structure State where
  last_notification : Option Notify
  callbacks : List (String × List Nat)
  cmds : List Cmd
  invoked : List Invocation
deriving DecidableEq

/-- Result of an operation: Python exceptions do not undo earlier
mutations, so the error case carries the state at raise time. -/
inductive Res where
  | ok (s : State)
  | err (e : Err) (s : State)
deriving DecidableEq

/-- The state carried by a result (final state, also after an exception). -/
def Res.state : Res → State
  | .ok s => s
  | .err _ s => s

/-- Sequencing: an exception propagates. -/
def Res.bind (r : Res) (f : State → Res) : Res :=
  match r with
  | .ok s => f s
  | .err e s => .err e s

/-- Connection model: which `connection.execute` calls raise. -/
def Conn := Cmd → Bool

/-- A connection on which every command succeeds (normal operation). -/
def noFail : Conn := fun _ => false

/-- Callback environment: the registry mutations callback `cb` performs
when invoked.  `fun _ => []` is a passive environment (callbacks that only
compute and do not touch the listener). -/
def Env := Nat → List CbAction

/-- `self.connection.execute(cmd)`: raises if the connection fails on this
command, otherwise appends the command to the issued-command log. -/
def connExecute (conn : Conn) (c : Cmd) (s : State) : Res :=
  if conn c then .err .connError s
  else .ok { s with cmds := s.cmds ++ [c] }

/-- Lookup in the registry dict (`d[ch]`, as an option). -/
def dictLookup : List (String × List Nat) → String → Option (List Nat)
  | [], _ => none
  | (k, v) :: rest, ch => if k = ch then some v else dictLookup rest ch

/-- Dict assignment `d[ch] = v`: replaces in place, or appends a new key. -/
def dictSet : List (String × List Nat) → String → List Nat → List (String × List Nat)
  | [], ch, v => [(ch, v)]
  | (k, w) :: rest, ch, v => if k = ch then (ch, v) :: rest else (k, w) :: dictSet rest ch v

/-- Dict deletion `del d[ch]` (on the first matching key). -/
def dictDel : List (String × List Nat) → String → List (String × List Nat)
  | [], _ => []
  | (k, w) :: rest, ch => if k = ch then rest else (k, w) :: dictDel rest ch

/-- The dict's keys in iteration (= insertion) order, `list(d)`. -/
def dictKeys (d : List (String × List Nat)) : List String := d.map Prod.fst

/-- `set.add`: no-op on an existing member. -/
def setAdd (xs : List Nat) (cb : Nat) : List Nat :=
  if cb ∈ xs then xs else xs ++ [cb]

/-- `NotificationListener.__init__`: no notification seen, empty registry. -/
def initState : State :=
  { last_notification := none, callbacks := [], cmds := [], invoked := [] }

/-- `NotificationListener._get_or_create_listening_channel`: if the channel
has no entry, create the key with an empty set FIRST and only then issue
`LISTEN` (so a failing `LISTEN` leaves the empty-set key behind). -/
def get_or_create_listening_channel (conn : Conn) (ch : String) (s : State) : Res :=
  match dictLookup s.callbacks ch with
  | some _ => .ok s
  | none => connExecute conn (.listen ch) { s with callbacks := dictSet s.callbacks ch [] }

/-- `NotificationListener.subscribe_to_channel`: get-or-create the channel's
set, then `add` the callback to it. -/
def subscribe_to_channel (conn : Conn) (ch : String) (cb : Nat) (s : State) : Res :=
  (get_or_create_listening_channel conn ch s).bind fun s1 =>
    match dictLookup s1.callbacks ch with
    | some v => .ok { s1 with callbacks := dictSet s1.callbacks ch (setAdd v cb) }
    | none => .ok s1

/-- `NotificationListener.unsubscribe_channel`: `del self.callbacks[channel]`
(KeyError if absent), then issue `UNLISTEN`. -/
def unsubscribe_channel (conn : Conn) (ch : String) (s : State) : Res :=
  match dictLookup s.callbacks ch with
  | none => .err .keyError s
  | some _ => connExecute conn (.unlisten ch) { s with callbacks := dictDel s.callbacks ch }

/-- `NotificationListener.unsubscribe_from_channel`:
`self.callbacks[channel].remove(callback)` (KeyError if the channel or the
callback is not subscribed), then unsubscribe the channel if its set became
empty. -/
def unsubscribe_from_channel (conn : Conn) (ch : String) (cb : Nat) (s : State) : Res :=
  match dictLookup s.callbacks ch with
  | none => .err .keyError s
  | some v =>
    if cb ∈ v then
      let s1 : State := { s with callbacks := dictSet s.callbacks ch (v.erase cb) }
      if v.erase cb = [] then unsubscribe_channel conn ch s1 else .ok s1
    else .err .keyError s

/-- Body of `NotificationListener.unsubscribe_all`: iterate over a snapshot
`list(self.callbacks)` of the keys, unsubscribing each channel. -/
def unsubAllGo (conn : Conn) : List String → State → Res
  | [], s => .ok s
  | ch :: rest, s => (unsubscribe_channel conn ch s).bind (unsubAllGo conn rest)

/-- `NotificationListener.unsubscribe_all`. -/
def unsubscribe_all (conn : Conn) (s : State) : Res :=
  unsubAllGo conn (dictKeys s.callbacks) s

/-- One registry mutation performed from inside a callback body. -/
def applyAction (conn : Conn) (a : CbAction) (s : State) : Res :=
  match a with
  | .subscribeAct ch cb => subscribe_to_channel conn ch cb s
  | .unsubOneAct ch cb => unsubscribe_from_channel conn ch cb s
  | .unsubChannelAct ch => unsubscribe_channel conn ch s
  | .unsubAllAct => unsubscribe_all conn s

/-- Running a callback body: perform its actions in order, propagating any
exception. -/
def runActions (conn : Conn) : List CbAction → State → Res
  | [], s => .ok s
  | a :: rest, s => (applyAction conn a s).bind (runActions conn rest)

/-- Invoking one callback during dispatch of `ch`: record the invocation
(with the currently observable `last_notification`), then run its body. -/
def invokeCallback (conn : Conn) (env : Env) (ch : String) (cb : Nat) (s : State) : Res :=
  runActions conn (env cb)
    { s with invoked := s.invoked ++ [{ channel := ch, cb := cb, seen := s.last_notification }] }

/-- Iterating over the snapshot `self.callbacks[channel].copy()`. -/
def runCallbackList (conn : Conn) (env : Env) (ch : String) : List Nat → State → Res
  | [], s => .ok s
  | cb :: rest, s => (invokeCallback conn env ch cb s).bind (runCallbackList conn env ch rest)

/-- `NotificationListener.execute_callbacks`: if the channel has no entry,
return silently; otherwise invoke every callback in a snapshot of the
channel's set taken at dispatch time. -/
def execute_callbacks (conn : Conn) (env : Env) (ch : String) (s : State) : Res :=
  match dictLookup s.callbacks ch with
  | none => .ok s
  | some snap => runCallbackList conn env ch snap s

/-- Loop of `NotificationListener.execute_all_callbacks`:
`for channel in self.callbacks` iterates the LIVE dict by position; the
CPython dict iterator compares the dict's current size against its size at
iterator creation (`n0`) before every step and raises `RuntimeError` if it
changed. -/
def execAllGo (conn : Conn) (env : Env) (n0 : Nat) : List Nat → State → Res
  | [], s => if s.callbacks.length ≠ n0 then .err .runtimeError s else .ok s
  | i :: rest, s =>
    if s.callbacks.length ≠ n0 then .err .runtimeError s
    else if hi : i < s.callbacks.length then
      (execute_callbacks conn env (s.callbacks.get ⟨i, hi⟩).1 s).bind (execAllGo conn env n0 rest)
    else .ok s

/-- `NotificationListener.execute_all_callbacks`. -/
def execute_all_callbacks (conn : Conn) (env : Env) (s : State) : Res :=
  execAllGo conn env s.callbacks.length (List.range s.callbacks.length) s

/-- One iteration of the receive loop in `NotificationListener.start`:
record the notification in `last_notification`, then dispatch its channel. -/
def handleNotification (conn : Conn) (env : Env) (ev : Notify) (s : State) : Res :=
  execute_callbacks conn env ev.channel { s with last_notification := some ev }

/-- The receive loop of `NotificationListener.start`, on the (modelled
finite) stream of notifications delivered by the connection. -/
def runNotifications (conn : Conn) (env : Env) : List Notify → State → Res
  | [], s => .ok s
  | ev :: rest, s => (handleNotification conn env ev s).bind (runNotifications conn env rest)

/-- `NotificationListener.start`: optional initial pass over all registered
callbacks, then the receive loop. -/
def start (conn : Conn) (env : Env) (initial_run : Bool) (events : List Notify)
    (s : State) : Res :=
  (if initial_run then execute_all_callbacks conn env s else .ok s).bind
    (runNotifications conn env events)

/-- A public operation on the listener (used to define reachability). -/
inductive Op where
  | subscribeOp (ch : String) (cb : Nat)
  | unsubOneOp (ch : String) (cb : Nat)
  | unsubChannelOp (ch : String)
  | unsubAllOp
  | executeCallbacksOp (env : Env) (ch : String)
  | executeAllOp (env : Env)
  | startOp (env : Env) (initial_run : Bool) (events : List Notify)

/-- Semantics of a public operation. -/
def applyOp (conn : Conn) (o : Op) (s : State) : Res :=
  match o with
  | .subscribeOp ch cb => subscribe_to_channel conn ch cb s
  | .unsubOneOp ch cb => unsubscribe_from_channel conn ch cb s
  | .unsubChannelOp ch => unsubscribe_channel conn ch s
  | .unsubAllOp => unsubscribe_all conn s
  | .executeCallbacksOp env ch => execute_callbacks conn env ch s
  | .executeAllOp env => execute_all_callbacks conn env s
  | .startOp env b events => start conn env b events s

/-- Running a sequence of public operations, keeping the state even when an
operation raised (the exception propagates to the caller, who may keep
using the listener). -/
def runOps (conn : Conn) : List Op → State → State
  | [], s => s
  | o :: rest, s => runOps conn rest (applyOp conn o s).state

/-- A listener state reachable from a fresh listener by public operations
over a connection on which every command succeeds. -/
def Reachable (s : State) : Prop :=
  ∃ ops : List Op, runOps noFail ops initState = s

/-- Whether, after the issued command log `cmds`, the source has an active
`LISTEN` on `ch` (a `LISTEN` not followed by an `UNLISTEN`). -/
def activeListen (cmds : List Cmd) (ch : String) : Bool :=
  cmds.foldl
    (fun b c =>
      match c with
      | .listen ch' => if ch' = ch then true else b
      | .unlisten ch' => if ch' = ch then false else b)
    false

/-! ### Basic lemmas about the helper structures -/

@[simp]
theorem Res.bind_ok (s : State) (f : State → Res) : (Res.ok s).bind f = f s := rfl

@[simp]
theorem Res.bind_err (e : Err) (s : State) (f : State → Res) :
    (Res.err e s).bind f = Res.err e s := rfl

@[simp]
theorem Res.state_ok (s : State) : (Res.ok s).state = s := rfl

@[simp]
theorem Res.state_err (e : Err) (s : State) : (Res.err e s).state = s := rfl

@[simp]
theorem noFail_apply (c : Cmd) : noFail c = false := rfl

@[simp]
theorem connExecute_noFail (c : Cmd) (s : State) :
    connExecute noFail c s = .ok { s with cmds := s.cmds ++ [c] } := rfl

theorem dictLookup_dictSet (d : List (String × List Nat)) (ch x : String) (v : List Nat) :
    dictLookup (dictSet d ch v) x = if ch = x then some v else dictLookup d x := by
  induction d with
  | nil => by_cases h : ch = x <;> simp [dictSet, dictLookup, h]
  | cons p rest ih =>
    obtain ⟨k, w⟩ := p
    by_cases hk : k = ch
    · subst hk
      by_cases hx : k = x <;> simp [dictSet, dictLookup, hx]
    · by_cases hx : k = x
      · subst hx
        have : ¬ ch = k := fun h => hk h.symm
        simp [dictSet, dictLookup, hk, this]
      · simp [dictSet, dictLookup, hk, hx, ih]

theorem dictKeys_dictSet_of_mem (d : List (String × List Nat)) (ch : String) (v : List Nat)
    (h : (dictLookup d ch).isSome) : dictKeys (dictSet d ch v) = dictKeys d := by
  induction d with
  | nil => simp [dictLookup] at h
  | cons p rest ih =>
    obtain ⟨k, w⟩ := p
    by_cases hk : k = ch
    · subst hk
      simp [dictSet, dictKeys]
    · simp [dictLookup, hk] at h
      simp [dictSet, dictKeys, hk] at ih ⊢
      exact ih h

theorem dictKeys_dictSet_of_none (d : List (String × List Nat)) (ch : String) (v : List Nat)
    (h : dictLookup d ch = none) : dictKeys (dictSet d ch v) = dictKeys d ++ [ch] := by
  induction d with
  | nil => simp [dictSet, dictKeys]
  | cons p rest ih =>
    obtain ⟨k, w⟩ := p
    by_cases hk : k = ch
    · subst hk; simp [dictLookup] at h
    · simp [dictLookup, hk] at h
      simp [dictSet, dictKeys, hk] at ih ⊢
      exact ih h

theorem dictLookup_eq_none_iff (d : List (String × List Nat)) (ch : String) :
    dictLookup d ch = none ↔ ch ∉ dictKeys d := by
  induction d with
  | nil => simp [dictLookup, dictKeys]
  | cons p rest ih =>
    obtain ⟨k, w⟩ := p
    by_cases hk : k = ch
    · subst hk; simp [dictLookup, dictKeys]
    · simp [dictLookup, dictKeys, hk, ih]
      intro h
      exact fun hh => hk hh.symm

theorem dictKeys_dictDel (d : List (String × List Nat)) (ch : String) :
    dictKeys (dictDel d ch) = (dictKeys d).erase ch := by
  induction d with
  | nil => simp [dictDel, dictKeys]
  | cons p rest ih =>
    obtain ⟨k, w⟩ := p
    by_cases hk : k = ch
    · subst hk; simp [dictDel, dictKeys, List.erase_cons]
    · have : ¬ (k == ch) = true := by simp [hk]
      simp only [dictDel, if_neg hk, dictKeys, List.map_cons, List.erase_cons, this, if_neg]
      simpa [dictKeys] using ih

theorem dictLookup_dictDel (d : List (String × List Nat)) (ch x : String)
    (hnd : (dictKeys d).Nodup) :
    dictLookup (dictDel d ch) x = if ch = x then none else dictLookup d x := by
  induction d with
  | nil => simp [dictDel, dictLookup]
  | cons p rest ih =>
    obtain ⟨k, w⟩ := p
    have hnd' : k ∉ dictKeys rest ∧ (dictKeys rest).Nodup := by
      have : (k :: dictKeys rest).Nodup := hnd
      exact List.nodup_cons.1 this
    by_cases hk : k = ch
    · by_cases hx : ch = x
      · have hkx : k = x := hk.trans hx
        simp only [dictDel, if_pos hk, if_pos hx]
        rw [(dictLookup_eq_none_iff rest x).2 (hkx ▸ hnd'.1)]
      · have hkx : ¬ k = x := fun h => hx (hk ▸ h)
        simp [dictDel, hk, dictLookup, hkx, hx]
    · by_cases hx : k = x
      · have hchx : ¬ ch = x := fun h => hk (hx.trans h.symm)
        have hxch : ¬ x = ch := fun h => hk (hx.trans h)
        simp [dictDel, hk, dictLookup, hx, hchx, hxch]
      · simp [dictDel, hk, dictLookup, hx]
        exact ih hnd'.2

theorem dictDel_dictSet (d : List (String × List Nat)) (ch : String) (v : List Nat) :
    dictDel (dictSet d ch v) ch = dictDel d ch := by
  induction d with
  | nil => simp [dictSet, dictDel]
  | cons p rest ih =>
    obtain ⟨k, w⟩ := p
    by_cases hk : k = ch
    · subst hk; simp [dictSet, dictDel]
    · simp [dictSet, dictDel, hk, ih]

theorem dictSet_self (d : List (String × List Nat)) (ch : String) (v : List Nat)
    (h : dictLookup d ch = some v) : dictSet d ch v = d := by
  induction d with
  | nil => simp [dictLookup] at h
  | cons p rest ih =>
    obtain ⟨k, w⟩ := p
    by_cases hk : k = ch
    · subst hk
      simp [dictLookup] at h
      simp [dictSet, h]
    · simp [dictLookup, hk] at h
      simp [dictSet, hk, ih h]

theorem dictLookup_of_mem_nodup (d : List (String × List Nat)) (p : String × List Nat)
    (hnd : (dictKeys d).Nodup) (hp : p ∈ d) : dictLookup d p.1 = some p.2 := by
  induction d with
  | nil => simp at hp
  | cons q rest ih =>
    obtain ⟨k, w⟩ := q
    have hnd' : k ∉ dictKeys rest ∧ (dictKeys rest).Nodup := by
      have : (k :: dictKeys rest).Nodup := hnd
      exact List.nodup_cons.1 this
    rcases List.mem_cons.1 hp with h | h
    · subst h; simp [dictLookup]
    · have hk : ¬ k = p.1 := by
        intro hkk
        exact hnd'.1 (hkk ▸ List.mem_map_of_mem Prod.fst h)
      simp [dictLookup, hk]
      exact ih hnd'.2 h

theorem setAdd_nodup (xs : List Nat) (cb : Nat) (h : xs.Nodup) : (setAdd xs cb).Nodup := by
  unfold setAdd
  by_cases hm : cb ∈ xs
  · simpa [hm]
  · simp [hm, List.nodup_append, h]

theorem setAdd_ne_nil (xs : List Nat) (cb : Nat) : setAdd xs cb ≠ [] := by
  unfold setAdd
  by_cases hm : cb ∈ xs
  · simp [hm]
    rintro rfl
    simp at hm
  · simp [hm]

theorem setAdd_mem (xs : List Nat) (cb : Nat) : cb ∈ setAdd xs cb := by
  unfold setAdd
  by_cases hm : cb ∈ xs <;> simp [hm]

theorem setAdd_of_mem (xs : List Nat) (cb : Nat) (h : cb ∈ xs) : setAdd xs cb = xs := by
  simp [setAdd, h]

theorem activeListen_append_listen (cmds : List Cmd) (ch x : String) :
    activeListen (cmds ++ [.listen ch]) x = if ch = x then true else activeListen cmds x := by
  simp [activeListen, List.foldl_append]

theorem activeListen_append_unlisten (cmds : List Cmd) (ch x : String) :
    activeListen (cmds ++ [.unlisten ch]) x = if ch = x then false else activeListen cmds x := by
  simp [activeListen, List.foldl_append]

/-! ### The registry invariant and its preservation -/

theorem dictLookup_mem (d : List (String × List Nat)) (ch : String) (v : List Nat)
    (h : dictLookup d ch = some v) : (ch, v) ∈ d := by
  induction d with
  | nil => simp [dictLookup] at h
  | cons p rest ih =>
    obtain ⟨k, w⟩ := p
    by_cases hk : k = ch
    · subst hk
      simp [dictLookup] at h
      simp [h]
    · simp [dictLookup, hk] at h
      simp [ih h]

theorem mem_dictSet (d : List (String × List Nat)) (ch : String) (v : List Nat)
    (p : String × List Nat) (h : p ∈ dictSet d ch v) : p = (ch, v) ∨ p ∈ d := by
  induction d with
  | nil => simp [dictSet] at h; simp [h]
  | cons q rest ih =>
    obtain ⟨k, w⟩ := q
    by_cases hk : k = ch
    · subst hk
      simp [dictSet] at h
      rcases h with h | h
      · simp [h]
      · simp [h]
    · simp [dictSet, hk] at h
      rcases h with h | h
      · simp [h]
      · rcases ih h with h' | h'
        · simp [h']
        · simp [h']

theorem mem_dictDel (d : List (String × List Nat)) (ch : String)
    (p : String × List Nat) (h : p ∈ dictDel d ch) : p ∈ d := by
  induction d with
  | nil => simp [dictDel] at h
  | cons q rest ih =>
    obtain ⟨k, w⟩ := q
    by_cases hk : k = ch
    · subst hk
      simp [dictDel] at h
      simp [h]
    · simp [dictDel, hk] at h
      rcases h with h | h
      · simp [h]
      · simp [ih h]

theorem dictSet_dictSet (d : List (String × List Nat)) (ch : String) (v w : List Nat) :
    dictSet (dictSet d ch v) ch w = dictSet d ch w := by
  induction d with
  | nil => simp [dictSet]
  | cons q rest ih =>
    obtain ⟨k, u⟩ := q
    by_cases hk : k = ch
    · subst hk; simp [dictSet]
    · simp [dictSet, hk, ih]


/-! ### Characterisations of the subscription operations -/

theorem subscribe_to_channel_existing (conn : Conn) (ch : String) (cb : Nat) (s : State)
    (v : List Nat) (hl : dictLookup s.callbacks ch = some v) :
    subscribe_to_channel conn ch cb s =
      .ok { s with callbacks := dictSet s.callbacks ch (setAdd v cb) } := by
  unfold subscribe_to_channel get_or_create_listening_channel
  simp [hl]

theorem subscribe_to_channel_new (conn : Conn) (ch : String) (cb : Nat) (s : State)
    (hl : dictLookup s.callbacks ch = none) (hc : conn (.listen ch) = false) :
    subscribe_to_channel conn ch cb s =
      .ok { s with callbacks := dictSet s.callbacks ch [cb],
                   cmds := s.cmds ++ [Cmd.listen ch] } := by
  unfold subscribe_to_channel get_or_create_listening_channel connExecute
  simp [hl, hc, dictLookup_dictSet, dictSet_dictSet, setAdd]

theorem unsubscribe_channel_some (conn : Conn) (ch : String) (s : State) (v : List Nat)
    (hl : dictLookup s.callbacks ch = some v) (hc : conn (.unlisten ch) = false) :
    unsubscribe_channel conn ch s =
      .ok { s with callbacks := dictDel s.callbacks ch,
                   cmds := s.cmds ++ [Cmd.unlisten ch] } := by
  unfold unsubscribe_channel connExecute
  simp [hl, hc]

theorem unsubscribe_channel_none (conn : Conn) (ch : String) (s : State)
    (hl : dictLookup s.callbacks ch = none) :
    unsubscribe_channel conn ch s = .err .keyError s := by
  unfold unsubscribe_channel
  simp [hl]

theorem unsubscribe_from_channel_nochannel (conn : Conn) (ch : String) (cb : Nat) (s : State)
    (hl : dictLookup s.callbacks ch = none) :
    unsubscribe_from_channel conn ch cb s = .err .keyError s := by
  unfold unsubscribe_from_channel
  simp [hl]

theorem unsubscribe_from_channel_nocallback (conn : Conn) (ch : String) (cb : Nat) (s : State)
    (v : List Nat) (hl : dictLookup s.callbacks ch = some v) (hm : cb ∉ v) :
    unsubscribe_from_channel conn ch cb s = .err .keyError s := by
  unfold unsubscribe_from_channel
  simp [hl, hm]

theorem unsubscribe_from_channel_last (conn : Conn) (ch : String) (cb : Nat) (s : State)
    (v : List Nat) (hl : dictLookup s.callbacks ch = some v) (hm : cb ∈ v)
    (he : v.erase cb = []) (hc : conn (.unlisten ch) = false) :
    unsubscribe_from_channel conn ch cb s =
      .ok { s with callbacks := dictDel s.callbacks ch,
                   cmds := s.cmds ++ [Cmd.unlisten ch] } := by
  unfold unsubscribe_from_channel unsubscribe_channel connExecute
  simp [hl, hm, he, hc, dictLookup_dictSet, dictDel_dictSet]

theorem unsubscribe_from_channel_keep (conn : Conn) (ch : String) (cb : Nat) (s : State)
    (v : List Nat) (hl : dictLookup s.callbacks ch = some v) (hm : cb ∈ v)
    (he : v.erase cb ≠ []) :
    unsubscribe_from_channel conn ch cb s =
      .ok { s with callbacks := dictSet s.callbacks ch (v.erase cb) } := by
  unfold unsubscribe_from_channel
  simp [hl, hm, he]

/-! ### The registry invariant and its preservation -/

/-- The registry invariant, as a property of the registry dict and the
issued-command log: keys are unique, every channel's callback set is
non-empty and duplicate-free, and a channel has an entry exactly when the
source has an active `LISTEN` for it. -/
def InvCore (d : List (String × List Nat)) (cmds : List Cmd) : Prop :=
  (dictKeys d).Nodup ∧
  (∀ p ∈ d, p.2 ≠ [] ∧ p.2.Nodup) ∧
  (∀ ch, (dictLookup d ch).isSome = activeListen cmds ch)

/-- The registry invariant of a listener state. -/
def RegInv (s : State) : Prop := InvCore s.callbacks s.cmds

theorem inv_initState : RegInv initState := by
  refine ⟨by simp [initState, dictKeys], by simp [initState], ?_⟩
  intro ch
  simp [initState, dictLookup, activeListen]

theorem invCore_set_existing (d : List (String × List Nat)) (cmds : List Cmd)
    (ch : String) (v w : List Nat) (h : InvCore d cmds)
    (hl : dictLookup d ch = some v) (hw : w ≠ []) (hwnd : w.Nodup) :
    InvCore (dictSet d ch w) cmds := by
  obtain ⟨hkeys, hsets, hact⟩ := h
  refine ⟨?_, ?_, ?_⟩
  · rw [dictKeys_dictSet_of_mem d ch w (by simp [hl])]
    exact hkeys
  · intro p hp
    rcases mem_dictSet _ _ _ _ hp with h' | h'
    · subst h'; exact ⟨hw, hwnd⟩
    · exact hsets p h'
  · intro x
    rw [dictLookup_dictSet]
    by_cases hx : ch = x
    · subst hx
      rw [← hact ch, hl]
      simp
    · simp [hx, hact x]

theorem invCore_delete (d : List (String × List Nat)) (cmds : List Cmd) (ch : String)
    (h : InvCore d cmds) :
    InvCore (dictDel d ch) (cmds ++ [Cmd.unlisten ch]) := by
  obtain ⟨hkeys, hsets, hact⟩ := h
  refine ⟨?_, ?_, ?_⟩
  · rw [dictKeys_dictDel]
    exact hkeys.erase ch
  · intro p hp
    exact hsets p (mem_dictDel _ _ _ hp)
  · intro x
    rw [dictLookup_dictDel _ _ _ hkeys, activeListen_append_unlisten]
    by_cases hx : ch = x
    · simp [hx]
    · simp [hx, hact x]

theorem inv_subscribe (ch : String) (cb : Nat) (s : State) (h : RegInv s) :
    RegInv (subscribe_to_channel noFail ch cb s).state := by
  cases hl : dictLookup s.callbacks ch with
  | some v =>
    rw [subscribe_to_channel_existing noFail ch cb s v hl]
    have hv := h.2.1 (ch, v) (dictLookup_mem _ _ _ hl)
    exact invCore_set_existing s.callbacks s.cmds ch v _ h hl
      (setAdd_ne_nil v cb) (setAdd_nodup v cb hv.2)
  | none =>
    rw [subscribe_to_channel_new noFail ch cb s hl rfl]
    obtain ⟨hkeys, hsets, hact⟩ := h
    have hch : ch ∉ dictKeys s.callbacks := (dictLookup_eq_none_iff _ _).1 hl
    show InvCore (dictSet s.callbacks ch [cb]) (s.cmds ++ [Cmd.listen ch])
    refine ⟨?_, ?_, ?_⟩
    · rw [dictKeys_dictSet_of_none _ _ _ hl]
      simp [List.nodup_append, hkeys, hch]
    · intro p hp
      rcases mem_dictSet _ _ _ _ hp with h' | h'
      · subst h'; exact ⟨by simp, by simp⟩
      · exact hsets p h'
    · intro x
      rw [dictLookup_dictSet, activeListen_append_listen]
      by_cases hx : ch = x
      · simp [hx]
      · simp [hx, hact x]

theorem inv_unsubscribe_channel (ch : String) (s : State) (h : RegInv s) :
    RegInv (unsubscribe_channel noFail ch s).state := by
  cases hl : dictLookup s.callbacks ch with
  | none => rw [unsubscribe_channel_none noFail ch s hl]; exact h
  | some v =>
    rw [unsubscribe_channel_some noFail ch s v hl rfl]
    exact invCore_delete s.callbacks s.cmds ch h

theorem inv_unsubscribe_from_channel (ch : String) (cb : Nat) (s : State) (h : RegInv s) :
    RegInv (unsubscribe_from_channel noFail ch cb s).state := by
  cases hl : dictLookup s.callbacks ch with
  | none => rw [unsubscribe_from_channel_nochannel noFail ch cb s hl]; exact h
  | some v =>
    by_cases hm : cb ∈ v
    · by_cases he : v.erase cb = []
      · rw [unsubscribe_from_channel_last noFail ch cb s v hl hm he rfl]
        exact invCore_delete s.callbacks s.cmds ch h
      · rw [unsubscribe_from_channel_keep noFail ch cb s v hl hm he]
        have hv := h.2.1 (ch, v) (dictLookup_mem _ _ _ hl)
        exact invCore_set_existing s.callbacks s.cmds ch v _ h hl he (hv.2.erase cb)
    · rw [unsubscribe_from_channel_nocallback noFail ch cb s v hl hm]
      exact h

theorem inv_unsubAllGo (chs : List String) : ∀ s : State, RegInv s →
    RegInv (unsubAllGo noFail chs s).state := by
  induction chs with
  | nil => intro s h; exact h
  | cons ch rest ih =>
    intro s h
    unfold unsubAllGo
    have h1 := inv_unsubscribe_channel ch s h
    cases hr : unsubscribe_channel noFail ch s with
    | ok s1 =>
      rw [hr] at h1
      exact ih s1 h1
    | err e s1 =>
      rw [hr] at h1
      exact h1

theorem inv_unsubscribe_all (s : State) (h : RegInv s) :
    RegInv (unsubscribe_all noFail s).state :=
  inv_unsubAllGo (dictKeys s.callbacks) s h

theorem inv_applyCbAction (a : CbAction) (s : State) (h : RegInv s) :
    RegInv (applyAction noFail a s).state := by
  cases a with
  | subscribeAct ch cb => exact inv_subscribe ch cb s h
  | unsubOneAct ch cb => exact inv_unsubscribe_from_channel ch cb s h
  | unsubChannelAct ch => exact inv_unsubscribe_channel ch s h
  | unsubAllAct => exact inv_unsubscribe_all s h

theorem inv_runActions (acts : List CbAction) : ∀ s : State, RegInv s →
    RegInv (runActions noFail acts s).state := by
  induction acts with
  | nil => intro s h; exact h
  | cons a rest ih =>
    intro s h
    unfold runActions
    have h1 := inv_applyCbAction a s h
    cases hr : applyAction noFail a s with
    | ok s1 => rw [hr] at h1; exact ih s1 h1
    | err e s1 => rw [hr] at h1; exact h1

theorem inv_invokeCallback (env : Env) (ch : String) (cb : Nat) (s : State) (h : RegInv s) :
    RegInv (invokeCallback noFail env ch cb s).state := by
  unfold invokeCallback
  exact inv_runActions (env cb) _ h

theorem inv_runCallbackList (env : Env) (ch : String) (snap : List Nat) :
    ∀ s : State, RegInv s → RegInv (runCallbackList noFail env ch snap s).state := by
  induction snap with
  | nil => intro s h; exact h
  | cons cb rest ih =>
    intro s h
    unfold runCallbackList
    have h1 := inv_invokeCallback env ch cb s h
    cases hr : invokeCallback noFail env ch cb s with
    | ok s1 => rw [hr] at h1; exact ih s1 h1
    | err e s1 => rw [hr] at h1; exact h1

theorem inv_execute_callbacks (env : Env) (ch : String) (s : State) (h : RegInv s) :
    RegInv (execute_callbacks noFail env ch s).state := by
  unfold execute_callbacks
  cases hl : dictLookup s.callbacks ch with
  | none => exact h
  | some snap => exact inv_runCallbackList env ch snap s h

theorem inv_execAllGo (env : Env) (n0 : Nat) (idxs : List Nat) :
    ∀ s : State, RegInv s → RegInv (execAllGo noFail env n0 idxs s).state := by
  induction idxs with
  | nil =>
    intro s h
    unfold execAllGo
    by_cases hn : s.callbacks.length ≠ n0 <;> simp [hn] <;> exact h
  | cons i rest ih =>
    intro s h
    unfold execAllGo
    by_cases hn : s.callbacks.length ≠ n0
    · rw [if_pos hn]
      exact h
    · rw [if_neg hn]
      by_cases hi : i < s.callbacks.length
      · rw [dif_pos hi]
        have h1 := inv_execute_callbacks env (s.callbacks.get ⟨i, hi⟩).1 s h
        cases hr : execute_callbacks noFail env (s.callbacks.get ⟨i, hi⟩).1 s with
        | ok s1 => rw [hr] at h1; exact ih s1 h1
        | err e s1 => rw [hr] at h1; exact h1
      · rw [dif_neg hi]
        exact h

theorem inv_execute_all_callbacks (env : Env) (s : State) (h : RegInv s) :
    RegInv (execute_all_callbacks noFail env s).state :=
  inv_execAllGo env s.callbacks.length (List.range s.callbacks.length) s h

theorem inv_handleNotification (env : Env) (ev : Notify) (s : State) (h : RegInv s) :
    RegInv (handleNotification noFail env ev s).state := by
  unfold handleNotification
  exact inv_execute_callbacks env ev.channel _ h

theorem inv_runNotifications (env : Env) (events : List Notify) :
    ∀ s : State, RegInv s → RegInv (runNotifications noFail env events s).state := by
  induction events with
  | nil => intro s h; exact h
  | cons ev rest ih =>
    intro s h
    unfold runNotifications
    have h1 := inv_handleNotification env ev s h
    cases hr : handleNotification noFail env ev s with
    | ok s1 => rw [hr] at h1; exact ih s1 h1
    | err e s1 => rw [hr] at h1; exact h1

theorem inv_start (env : Env) (b : Bool) (events : List Notify) (s : State) (h : RegInv s) :
    RegInv (start noFail env b events s).state := by
  unfold start
  cases b with
  | false =>
    have hb : (if (false : Bool) then execute_all_callbacks noFail env s else Res.ok s)
        = Res.ok s := rfl
    rw [hb, Res.bind_ok]
    exact inv_runNotifications env events s h
  | true =>
    have hb : (if (true : Bool) then execute_all_callbacks noFail env s else Res.ok s)
        = execute_all_callbacks noFail env s := rfl
    rw [hb]
    have h1 := inv_execute_all_callbacks env s h
    cases hr : execute_all_callbacks noFail env s with
    | ok s1 =>
      rw [hr] at h1
      simp only [Res.bind_ok]
      exact inv_runNotifications env events s1 h1
    | err e s1 =>
      rw [hr] at h1
      simp only [Res.bind_err]
      exact h1

theorem inv_applyOp (o : Op) (s : State) (h : RegInv s) :
    RegInv (applyOp noFail o s).state := by
  cases o with
  | subscribeOp ch cb => exact inv_subscribe ch cb s h
  | unsubOneOp ch cb => exact inv_unsubscribe_from_channel ch cb s h
  | unsubChannelOp ch => exact inv_unsubscribe_channel ch s h
  | unsubAllOp => exact inv_unsubscribe_all s h
  | executeCallbacksOp env ch => exact inv_execute_callbacks env ch s h
  | executeAllOp env => exact inv_execute_all_callbacks env s h
  | startOp env b events => exact inv_start env b events s h

theorem inv_runOps (ops : List Op) : ∀ s : State, RegInv s →
    RegInv (runOps noFail ops s) := by
  induction ops with
  | nil => intro s h; exact h
  | cons o rest ih =>
    intro s h
    unfold runOps
    exact ih _ (inv_applyOp o s h)

theorem inv_reachable (s : State) (h : Reachable s) : RegInv s := by
  obtain ⟨ops, hops⟩ := h
  rw [← hops]
  exact inv_runOps ops initState inv_initState

/-! ### Dispatch traces -/

/-- The invocations one dispatch of channel `ch` produces when the registry
is `d` and `last_notification` is `l` (assuming the callbacks themselves do
not mutate the listener). -/
def chanTrace (d : List (String × List Nat)) (ch : String) (l : Option Notify) :
    List Invocation :=
  match dictLookup d ch with
  | none => []
  | some snap => snap.map (fun cb => { channel := ch, cb := cb, seen := l })

/-- The invocations the receive loop produces on a stream of notifications,
when the callbacks do not mutate the listener (so the registry `d` stays
fixed). -/
def eventsTrace (d : List (String × List Nat)) : List Notify → List Invocation
  | [] => []
  | ev :: rest => chanTrace d ev.channel (some ev) ++ eventsTrace d rest

/-- The value of `last_notification` after a stream of events, starting
from `l`. -/
def finalLast (l : Option Notify) (events : List Notify) : Option Notify :=
  events.foldl (fun _ ev => some ev) l

/-- The invocations of the initial pass: every channel's set, in registry
order, each entry observing the current `last_notification`. -/
def initialTrace (s : State) : List Invocation :=
  (s.callbacks.map
    (fun p => p.2.map (fun cb => { channel := p.1, cb := cb, seen := s.last_notification }))).join

theorem runCallbackList_passive (conn : Conn) (env : Env) (hp : ∀ cb, env cb = [])
    (ch : String) (snap : List Nat) : ∀ s : State,
    runCallbackList conn env ch snap s =
      .ok { s with invoked := s.invoked ++
              snap.map (fun cb => { channel := ch, cb := cb, seen := s.last_notification }) } := by
  induction snap with
  | nil => intro s; simp [runCallbackList]
  | cons cb rest ih =>
    intro s
    unfold runCallbackList invokeCallback
    rw [hp cb]
    unfold runActions
    rw [Res.bind_ok, ih]
    simp

theorem execute_callbacks_passive (conn : Conn) (env : Env) (hp : ∀ cb, env cb = [])
    (ch : String) (s : State) :
    execute_callbacks conn env ch s =
      .ok { s with invoked := s.invoked ++ chanTrace s.callbacks ch s.last_notification } := by
  unfold execute_callbacks chanTrace
  cases hl : dictLookup s.callbacks ch with
  | none => simp
  | some snap => exact runCallbackList_passive conn env hp ch snap s

theorem runNotifications_passive (conn : Conn) (env : Env) (hp : ∀ cb, env cb = [])
    (events : List Notify) : ∀ s : State,
    runNotifications conn env events s =
      .ok { s with last_notification := finalLast s.last_notification events,
                   invoked := s.invoked ++ eventsTrace s.callbacks events } := by
  induction events with
  | nil => intro s; simp [runNotifications, finalLast, eventsTrace]
  | cons ev rest ih =>
    intro s
    unfold runNotifications handleNotification
    rw [execute_callbacks_passive conn env hp ev.channel _, Res.bind_ok, ih]
    simp [eventsTrace, finalLast, List.append_assoc]

theorem map_getD_range {α β : Type} (d : List α) (dflt : α) (f : α → β) :
    (List.range d.length).map (fun i => f (d.getD i dflt)) = d.map f := by
  induction d with
  | nil => simp
  | cons a rest ih =>
    have : rest.length + 1 = (a :: rest).length := rfl
    rw [← this, List.range_succ_eq_map]
    simp only [List.map_cons, List.getD_cons_zero, List.map_map]
    have comp : ((fun i => f ((a :: rest).getD i dflt)) ∘ Nat.succ)
        = fun i => f (rest.getD i dflt) := by
      funext i
      rfl
    rw [comp, ih]

theorem execAllGo_passive (conn : Conn) (env : Env) (hp : ∀ cb, env cb = [])
    (n0 : Nat) (idxs : List Nat) : ∀ s : State,
    s.callbacks.length = n0 → (∀ i ∈ idxs, i < n0) →
    execAllGo conn env n0 idxs s =
      .ok { s with invoked := s.invoked ++
        (idxs.map (fun i =>
          chanTrace s.callbacks (s.callbacks.getD i ("", [])).1 s.last_notification)).join } := by
  induction idxs with
  | nil =>
    intro s hn _
    unfold execAllGo
    rw [if_neg (by simp [hn])]
    simp
  | cons i rest ih =>
    intro s hn hlt
    unfold execAllGo
    rw [if_neg (by simp [hn])]
    have hi : i < s.callbacks.length := hn ▸ hlt i (by simp)
    rw [dif_pos hi]
    rw [execute_callbacks_passive conn env hp _ _, Res.bind_ok]
    have hget : (s.callbacks.get ⟨i, hi⟩).1 = (s.callbacks.getD i ("", [])).1 := by
      rw [List.getD_eq_get s.callbacks ("", []) hi]
    rw [hget, ih _ (by simpa using hn) (fun j hj => hlt j (by simp [hj]))]
    simp

theorem execute_all_callbacks_passive (conn : Conn) (env : Env) (hp : ∀ cb, env cb = [])
    (s : State) (hk : (dictKeys s.callbacks).Nodup) :
    execute_all_callbacks conn env s =
      .ok { s with invoked := s.invoked ++ initialTrace s } := by
  unfold execute_all_callbacks
  rw [execAllGo_passive conn env hp s.callbacks.length (List.range s.callbacks.length) s rfl
    (by intro i hi; simpa using hi)]
  congr 1
  have hmap := map_getD_range s.callbacks ("", [])
    (fun p => chanTrace s.callbacks p.1 s.last_notification)
  simp only [State.mk.injEq, true_and]
  congr 1
  rw [hmap]
  unfold initialTrace
  congr 1
  apply List.map_congr_left
  intro p hp'
  rw [chanTrace, dictLookup_of_mem_nodup s.callbacks p hk hp']

/-! ### Frame lemmas: registry operations never touch `last_notification`
or the invocation trace, and callback bodies never raise the
concurrent-modification `RuntimeError` -/

theorem subscribe_frame (conn : Conn) (ch : String) (cb : Nat) (s : State) :
    (subscribe_to_channel conn ch cb s).state.last_notification = s.last_notification ∧
    (subscribe_to_channel conn ch cb s).state.invoked = s.invoked := by
  unfold subscribe_to_channel get_or_create_listening_channel connExecute
  cases hl : dictLookup s.callbacks ch with
  | some v => simp [hl]
  | none =>
    by_cases hc : conn (.listen ch)
    · simp [hc]
    · simp [hc, dictLookup_dictSet]

theorem unsubscribe_channel_frame (conn : Conn) (ch : String) (s : State) :
    (unsubscribe_channel conn ch s).state.last_notification = s.last_notification ∧
    (unsubscribe_channel conn ch s).state.invoked = s.invoked := by
  unfold unsubscribe_channel connExecute
  cases hl : dictLookup s.callbacks ch with
  | none => simp
  | some v =>
    by_cases hc : conn (.unlisten ch)
    · simp [hc]
    · simp [hc]

theorem unsubscribe_from_channel_frame (conn : Conn) (ch : String) (cb : Nat) (s : State) :
    (unsubscribe_from_channel conn ch cb s).state.last_notification = s.last_notification ∧
    (unsubscribe_from_channel conn ch cb s).state.invoked = s.invoked := by
  unfold unsubscribe_from_channel
  cases hl : dictLookup s.callbacks ch with
  | none => simp
  | some v =>
    by_cases hm : cb ∈ v
    · by_cases he : v.erase cb = []
      · simp only [hm, if_pos, he]
        exact unsubscribe_channel_frame conn ch _
      · simp [hm, he]
    · simp [hm]

theorem unsubAllGo_frame (conn : Conn) (chs : List String) : ∀ s : State,
    (unsubAllGo conn chs s).state.last_notification = s.last_notification ∧
    (unsubAllGo conn chs s).state.invoked = s.invoked := by
  induction chs with
  | nil => intro s; simp [unsubAllGo]
  | cons ch rest ih =>
    intro s
    unfold unsubAllGo
    have h1 := unsubscribe_channel_frame conn ch s
    cases hr : unsubscribe_channel conn ch s with
    | ok s1 =>
      rw [hr] at h1
      simp only [Res.bind_ok]
      rw [(ih s1).1, (ih s1).2]
      exact h1
    | err e s1 =>
      rw [hr] at h1
      simpa using h1

theorem applyCbAction_frame (conn : Conn) (a : CbAction) (s : State) :
    (applyAction conn a s).state.last_notification = s.last_notification ∧
    (applyAction conn a s).state.invoked = s.invoked := by
  cases a with
  | subscribeAct ch cb => exact subscribe_frame conn ch cb s
  | unsubOneAct ch cb => exact unsubscribe_from_channel_frame conn ch cb s
  | unsubChannelAct ch => exact unsubscribe_channel_frame conn ch s
  | unsubAllAct => exact unsubAllGo_frame conn (dictKeys s.callbacks) s

theorem runActions_frame (conn : Conn) (acts : List CbAction) : ∀ s : State,
    (runActions conn acts s).state.last_notification = s.last_notification ∧
    (runActions conn acts s).state.invoked = s.invoked := by
  induction acts with
  | nil => intro s; simp [runActions]
  | cons a rest ih =>
    intro s
    unfold runActions
    have h1 := applyCbAction_frame conn a s
    cases hr : applyAction conn a s with
    | ok s1 =>
      rw [hr] at h1
      simp only [Res.bind_ok]
      rw [(ih s1).1, (ih s1).2]
      exact h1
    | err e s1 =>
      rw [hr] at h1
      simpa using h1

theorem invokeCallback_trace (conn : Conn) (env : Env) (ch : String) (cb : Nat) (s : State) :
    (invokeCallback conn env ch cb s).state.last_notification = s.last_notification ∧
    (invokeCallback conn env ch cb s).state.invoked =
      s.invoked ++ [{ channel := ch, cb := cb, seen := s.last_notification }] := by
  unfold invokeCallback
  have h := runActions_frame conn (env cb)
    { s with invoked := s.invoked ++ [{ channel := ch, cb := cb, seen := s.last_notification }] }
  exact ⟨h.1, h.2⟩

theorem runCallbackList_trace (conn : Conn) (env : Env) (ch : String) :
    ∀ (snap : List Nat) (s : State), ∃ k ≤ snap.length,
    (runCallbackList conn env ch snap s).state.last_notification = s.last_notification ∧
    (runCallbackList conn env ch snap s).state.invoked =
      s.invoked ++ (snap.take k).map
        (fun cb => { channel := ch, cb := cb, seen := s.last_notification }) ∧
    (∀ s', runCallbackList conn env ch snap s = .ok s' → k = snap.length) := by
  intro snap
  induction snap with
  | nil =>
    intro s
    exact ⟨0, by simp, by simp [runCallbackList], by simp [runCallbackList], fun _ _ => rfl⟩
  | cons cb rest ih =>
    intro s
    have h1 := invokeCallback_trace conn env ch cb s
    unfold runCallbackList
    cases hr : invokeCallback conn env ch cb s with
    | err e s1 =>
      rw [hr] at h1
      refine ⟨1, by simp, ?_, ?_, ?_⟩
      · simpa using h1.1
      · simpa using h1.2
      · intro s' hs'
        simp at hs'
    | ok s1 =>
      rw [hr] at h1
      simp only [Res.state_ok] at h1
      obtain ⟨k, hk, hlast, hinv, hok⟩ := ih s1
      refine ⟨k + 1, by simpa using Nat.succ_le_succ hk, ?_, ?_, ?_⟩
      · simp only [Res.bind_ok]
        rw [hlast, h1.1]
      · simp only [Res.bind_ok]
        rw [hinv, h1.2, h1.1]
        simp [List.append_assoc]
      · intro s' hs'
        simp only [Res.bind_ok] at hs'
        rw [hok s' hs']
        simp

theorem execute_callbacks_trace (conn : Conn) (env : Env) (ch : String) (s : State) :
    (execute_callbacks conn env ch s).state.last_notification = s.last_notification ∧
    ∃ t, (execute_callbacks conn env ch s).state.invoked = s.invoked ++ t ∧
      ∀ e ∈ t, e.seen = s.last_notification := by
  unfold execute_callbacks
  cases hl : dictLookup s.callbacks ch with
  | none => exact ⟨rfl, [], by simp, by simp⟩
  | some snap =>
    obtain ⟨k, _, hlast, hinv, _⟩ := runCallbackList_trace conn env ch snap s
    refine ⟨hlast, _, hinv, ?_⟩
    intro e he
    simp only [List.mem_map] at he
    obtain ⟨c, _, hc⟩ := he
    rw [← hc]

theorem execAllGo_trace (conn : Conn) (env : Env) (n0 : Nat) (idxs : List Nat) :
    ∀ s : State,
    (execAllGo conn env n0 idxs s).state.last_notification = s.last_notification ∧
    ∃ t, (execAllGo conn env n0 idxs s).state.invoked = s.invoked ++ t ∧
      ∀ e ∈ t, e.seen = s.last_notification := by
  induction idxs with
  | nil =>
    intro s
    unfold execAllGo
    by_cases hn : s.callbacks.length ≠ n0
    · rw [if_pos hn]
      exact ⟨rfl, [], by simp, by simp⟩
    · rw [if_neg hn]
      exact ⟨rfl, [], by simp, by simp⟩
  | cons i rest ih =>
    intro s
    unfold execAllGo
    by_cases hn : s.callbacks.length ≠ n0
    · rw [if_pos hn]
      exact ⟨rfl, [], by simp, by simp⟩
    · rw [if_neg hn]
      by_cases hi : i < s.callbacks.length
      · rw [dif_pos hi]
        have h1 := execute_callbacks_trace conn env (s.callbacks.get ⟨i, hi⟩).1 s
        cases hr : execute_callbacks conn env (s.callbacks.get ⟨i, hi⟩).1 s with
        | err e s1 =>
          rw [hr] at h1
          simpa using h1
        | ok s1 =>
          rw [hr] at h1
          simp only [Res.state_ok] at h1
          obtain ⟨hlast1, t1, hinv1, hseen1⟩ := h1
          obtain ⟨hlast2, t2, hinv2, hseen2⟩ := ih s1
          simp only [Res.bind_ok]
          refine ⟨by rw [hlast2, hlast1], t1 ++ t2, ?_, ?_⟩
          · rw [hinv2, hinv1, List.append_assoc]
          · intro e he
            rcases List.mem_append.1 he with h | h
            · exact hseen1 e h
            · rw [← hlast1]
              exact hseen2 e h
      · rw [dif_neg hi]
        exact ⟨rfl, [], by simp, by simp⟩

theorem execute_all_callbacks_trace (conn : Conn) (env : Env) (s : State) :
    (execute_all_callbacks conn env s).state.last_notification = s.last_notification ∧
    ∃ t, (execute_all_callbacks conn env s).state.invoked = s.invoked ++ t ∧
      ∀ e ∈ t, e.seen = s.last_notification :=
  execAllGo_trace conn env s.callbacks.length (List.range s.callbacks.length) s

/-- The result is anything but the concurrent-modification `RuntimeError`
CPython raises when a dict changes size during iteration. -/
def noRuntimeErr : Res → Prop
  | .err .runtimeError _ => False
  | _ => True

theorem noRuntimeErr_bind (r : Res) (f : State → Res) (hr : noRuntimeErr r)
    (hf : ∀ s, noRuntimeErr (f s)) : noRuntimeErr (r.bind f) := by
  cases r with
  | ok s => exact hf s
  | err e s => exact hr

theorem noRuntimeErr_connExecute (conn : Conn) (c : Cmd) (s : State) :
    noRuntimeErr (connExecute conn c s) := by
  unfold connExecute
  by_cases h : conn c
  · rw [if_pos h]; exact trivial
  · rw [if_neg h]; exact trivial

theorem noRuntimeErr_subscribe (conn : Conn) (ch : String) (cb : Nat) (s : State) :
    noRuntimeErr (subscribe_to_channel conn ch cb s) := by
  unfold subscribe_to_channel
  apply noRuntimeErr_bind
  · unfold get_or_create_listening_channel
    cases dictLookup s.callbacks ch with
    | none => exact noRuntimeErr_connExecute conn _ _
    | some v => exact trivial
  · intro s1
    cases dictLookup s1.callbacks ch with
    | none => exact trivial
    | some v => exact trivial

theorem noRuntimeErr_unsubscribe_channel (conn : Conn) (ch : String) (s : State) :
    noRuntimeErr (unsubscribe_channel conn ch s) := by
  unfold unsubscribe_channel
  cases dictLookup s.callbacks ch with
  | none => exact trivial
  | some v => exact noRuntimeErr_connExecute conn _ _

theorem noRuntimeErr_unsubscribe_from_channel (conn : Conn) (ch : String) (cb : Nat)
    (s : State) : noRuntimeErr (unsubscribe_from_channel conn ch cb s) := by
  unfold unsubscribe_from_channel
  cases dictLookup s.callbacks ch with
  | none => exact trivial
  | some v =>
    by_cases hm : cb ∈ v
    · by_cases he : v.erase cb = []
      · have h := noRuntimeErr_unsubscribe_channel conn ch
          { s with callbacks := dictSet s.callbacks ch (v.erase cb) }
        simpa [hm, he] using h
      · have h : noRuntimeErr (Res.ok
            { s with callbacks := dictSet s.callbacks ch (v.erase cb) }) := trivial
        simpa [hm, he] using h
    · have h : noRuntimeErr (Res.err Err.keyError s) := trivial
      simpa [hm] using h

theorem noRuntimeErr_unsubAllGo (conn : Conn) (chs : List String) : ∀ s : State,
    noRuntimeErr (unsubAllGo conn chs s) := by
  induction chs with
  | nil => intro s; exact trivial
  | cons ch rest ih =>
    intro s
    unfold unsubAllGo
    exact noRuntimeErr_bind _ _ (noRuntimeErr_unsubscribe_channel conn ch s) ih

theorem noRuntimeErr_applyCbAction (conn : Conn) (a : CbAction) (s : State) :
    noRuntimeErr (applyAction conn a s) := by
  cases a with
  | subscribeAct ch cb => exact noRuntimeErr_subscribe conn ch cb s
  | unsubOneAct ch cb => exact noRuntimeErr_unsubscribe_from_channel conn ch cb s
  | unsubChannelAct ch => exact noRuntimeErr_unsubscribe_channel conn ch s
  | unsubAllAct => exact noRuntimeErr_unsubAllGo conn _ s

theorem noRuntimeErr_runActions (conn : Conn) (acts : List CbAction) : ∀ s : State,
    noRuntimeErr (runActions conn acts s) := by
  induction acts with
  | nil => intro s; exact trivial
  | cons a rest ih =>
    intro s
    unfold runActions
    exact noRuntimeErr_bind _ _ (noRuntimeErr_applyCbAction conn a s) ih

theorem noRuntimeErr_invokeCallback (conn : Conn) (env : Env) (ch : String) (cb : Nat)
    (s : State) : noRuntimeErr (invokeCallback conn env ch cb s) := by
  unfold invokeCallback
  exact noRuntimeErr_runActions conn (env cb) _

theorem noRuntimeErr_runCallbackList (conn : Conn) (env : Env) (ch : String)
    (snap : List Nat) : ∀ s : State, noRuntimeErr (runCallbackList conn env ch snap s) := by
  induction snap with
  | nil => intro s; exact trivial
  | cons cb rest ih =>
    intro s
    unfold runCallbackList
    exact noRuntimeErr_bind _ _ (noRuntimeErr_invokeCallback conn env ch cb s) ih

theorem noRuntimeErr_execute_callbacks (conn : Conn) (env : Env) (ch : String) (s : State) :
    noRuntimeErr (execute_callbacks conn env ch s) := by
  unfold execute_callbacks
  cases dictLookup s.callbacks ch with
  | none => exact trivial
  | some snap => exact noRuntimeErr_runCallbackList conn env ch snap s

/-! ### The claims -/

/-- C1: for every reachable listener state, a channel appears as a registry
key iff the source has an active `LISTEN` for it (issued and not yet
`UNLISTEN`ed), and every registered channel's callback set is non-empty;
moreover subscribing the first callback of a fresh channel creates the key
and issues `LISTEN`, and removing a channel's last callback deletes the key
and issues `UNLISTEN`. -/
theorem registry_invariant_reachable (s : State) (h : Reachable s) :
    (∀ ch, (dictLookup s.callbacks ch).isSome = activeListen s.cmds ch) ∧
    (∀ ch v, dictLookup s.callbacks ch = some v → v ≠ []) ∧
    (∀ ch cb, dictLookup s.callbacks ch = none →
      subscribe_to_channel noFail ch cb s =
        .ok { s with callbacks := dictSet s.callbacks ch [cb],
                     cmds := s.cmds ++ [Cmd.listen ch] }) ∧
    (∀ ch cb, dictLookup s.callbacks ch = some [cb] →
      unsubscribe_from_channel noFail ch cb s =
        .ok { s with callbacks := dictDel s.callbacks ch,
                     cmds := s.cmds ++ [Cmd.unlisten ch] } ∧
      dictLookup (dictDel s.callbacks ch) ch = none) := by
  obtain ⟨hkeys, hsets, hact⟩ := inv_reachable s h
  refine ⟨hact, ?_, ?_, ?_⟩
  · intro ch v hv
    exact (hsets (ch, v) (dictLookup_mem _ _ _ hv)).1
  · intro ch cb hl
    exact subscribe_to_channel_new noFail ch cb s hl rfl
  · intro ch cb hl
    refine ⟨unsubscribe_from_channel_last noFail ch cb s [cb] hl (by simp) (by simp) rfl, ?_⟩
    rw [dictLookup_dictDel _ _ _ hkeys]
    simp

/-- Witness for C1 at the reachable state obtained by one subscribe. -/
theorem registry_invariant_reachable_witness :
    (dictLookup (runOps noFail [Op.subscribeOp "a" 0] initState).callbacks "a").isSome
      = activeListen (runOps noFail [Op.subscribeOp "a" 0] initState).cmds "a" :=
  (registry_invariant_reachable (runOps noFail [Op.subscribeOp "a" 0] initState)
    ⟨[Op.subscribeOp "a" 0], rfl⟩).1 "a"

/-- C4: `unsubscribe_from_channel` on an unregistered channel, or with a
callback that is not a member of the channel's set, and
`unsubscribe_channel` on an unregistered channel, raise `KeyError` and
return the listener state exactly as it was. -/
theorem unsubscribe_notfound (conn : Conn) (ch : String) (cb : Nat) (s : State) :
    (dictLookup s.callbacks ch = none →
      unsubscribe_from_channel conn ch cb s = .err .keyError s ∧
      unsubscribe_channel conn ch s = .err .keyError s) ∧
    (∀ v, dictLookup s.callbacks ch = some v → cb ∉ v →
      unsubscribe_from_channel conn ch cb s = .err .keyError s) := by
  refine ⟨?_, ?_⟩
  · intro hl
    exact ⟨unsubscribe_from_channel_nochannel conn ch cb s hl,
      unsubscribe_channel_none conn ch s hl⟩
  · intro v hl hm
    exact unsubscribe_from_channel_nocallback conn ch cb s v hl hm

/-- Witness for C4 on a fresh listener, which has no channel at all. -/
theorem unsubscribe_notfound_witness :
    unsubscribe_from_channel noFail "a" 0 initState = .err .keyError initState ∧
    unsubscribe_channel noFail "a" initState = .err .keyError initState :=
  (unsubscribe_notfound noFail "a" 0 initState).1 (by decide)

/-- C5: subscribing the same `(channel, callback)` pair a second time is a
no-op: it returns the state produced by the first subscribe unchanged (same
registry, same membership, and no second `LISTEN` issued). -/
theorem subscribe_idempotent (ch : String) (cb : Nat) (s : State) :
    subscribe_to_channel noFail ch cb (subscribe_to_channel noFail ch cb s).state =
      .ok (subscribe_to_channel noFail ch cb s).state := by
  cases hl : dictLookup s.callbacks ch with
  | some v =>
    rw [subscribe_to_channel_existing noFail ch cb s v hl]
    have hl1 : dictLookup (dictSet s.callbacks ch (setAdd v cb)) ch = some (setAdd v cb) := by
      rw [dictLookup_dictSet]
      simp
    rw [Res.state_ok,
      subscribe_to_channel_existing noFail ch cb _ (setAdd v cb) hl1]
    rw [setAdd_of_mem _ _ (setAdd_mem v cb)]
    rw [dictSet_self _ _ _ hl1]
  | none =>
    rw [subscribe_to_channel_new noFail ch cb s hl rfl]
    have hl1 : dictLookup (dictSet s.callbacks ch [cb]) ch = some [cb] := by
      rw [dictLookup_dictSet]
      simp
    rw [Res.state_ok,
      subscribe_to_channel_existing noFail ch cb _ [cb] hl1]
    rw [setAdd_of_mem _ _ (by simp)]
    rw [dictSet_self _ _ _ hl1]

/-- C8: for every event handed to the receive loop, `last_notification` is
set to that event before its callbacks run: after the event is handled it
equals the event, and every callback invocation recorded while handling it
observed exactly this event as the last notification. -/
theorem last_notification_before_dispatch (conn : Conn) (env : Env) (ev : Notify)
    (s : State) :
    (handleNotification conn env ev s).state.last_notification = some ev ∧
    ∃ t, (handleNotification conn env ev s).state.invoked = s.invoked ++ t ∧
      ∀ e ∈ t, e.seen = some ev := by
  unfold handleNotification
  have h := execute_callbacks_trace conn env ev.channel { s with last_notification := some ev }
  obtain ⟨hlast, t, hinv, hseen⟩ := h
  exact ⟨hlast, t, hinv, hseen⟩

/-- A connection on which `LISTEN` for the given channel raises and every
other command succeeds. -/
def failListen (ch0 : String) : Conn := fun c =>
  match c with
  | .listen ch => ch == ch0
  | .unlisten _ => false

/-- C9: when the `LISTEN` command raises while subscribing a channel with no
existing entry, the error propagates but the registry keeps an entry for the
channel with an empty callback set (the key is created before the command is
issued and is not rolled back), and no command was logged. -/
theorem subscribe_listen_failure_leaves_empty_key (ch : String) (cb : Nat) (s : State)
    (hl : dictLookup s.callbacks ch = none) :
    subscribe_to_channel (failListen ch) ch cb s =
      .err .connError { s with callbacks := dictSet s.callbacks ch [] } ∧
    dictLookup (dictSet s.callbacks ch []) ch = some [] ∧
    ({ s with callbacks := dictSet s.callbacks ch [] } : State).cmds = s.cmds := by
  refine ⟨?_, ?_, rfl⟩
  · unfold subscribe_to_channel get_or_create_listening_channel connExecute
    have hc : failListen ch (.listen ch) = true := by
      simp [failListen]
    simp [hl, hc]
  · rw [dictLookup_dictSet]
    simp

/-- Witness for C9 on a fresh listener. -/
theorem subscribe_listen_failure_witness :
    subscribe_to_channel (failListen "a") "a" 0 initState =
      .err .connError { initState with callbacks := dictSet initState.callbacks "a" [] } :=
  (subscribe_listen_failure_leaves_empty_key "a" 0 initState (by decide)).1

/-- C2 counterexample: a callback that unsubscribes its own channel while
the INITIAL pass (`execute_all_callbacks`) is iterating the registry dict
makes the dict change size during iteration, so the pass raises the
concurrent-modification `RuntimeError` instead of completing. -/
theorem initial_pass_concurrent_modification_cex :
    execute_all_callbacks noFail (fun _ => [CbAction.unsubChannelAct "a"])
        (subscribe_to_channel noFail "a" 0 initState).state
      = .err .runtimeError
          { last_notification := none,
            callbacks := [],
            cmds := [Cmd.listen "a", Cmd.unlisten "a"],
            invoked := [{ channel := "a", cb := 0, seen := none }] } := by
  decide

/-- C2 (amended): during the PER-EVENT dispatch (`execute_callbacks`), a
callback may subscribe or unsubscribe any channel (including its own)
without ever producing the concurrent-modification `RuntimeError`; the
invocations of the pass are determined by the snapshot taken at dispatch
time (a prefix of it, the whole snapshot whenever the pass completes), so
mid-pass mutations are not reflected, and with a duplicate-free snapshot no
callback — in particular one that removed itself — is invoked twice for the
same event.  (The initial pass does not enjoy this guarantee, see the
counterexample.) -/
theorem per_event_reentrant_mutation_safe (conn : Conn) (env : Env) (ch : String)
    (s : State) (snap : List Nat) (hl : dictLookup s.callbacks ch = some snap) :
    noRuntimeErr (execute_callbacks conn env ch s) ∧
    ∃ k ≤ snap.length,
      (execute_callbacks conn env ch s).state.invoked =
        s.invoked ++ (snap.take k).map
          (fun cb => { channel := ch, cb := cb, seen := s.last_notification }) ∧
      (∀ s', execute_callbacks conn env ch s = .ok s' → k = snap.length) ∧
      (snap.Nodup → ∀ cb : Nat,
        ((snap.take k).map
            (fun c => ({ channel := ch, cb := c, seen := s.last_notification } : Invocation))).count
          { channel := ch, cb := cb, seen := s.last_notification } ≤ 1) := by
  have hred : execute_callbacks conn env ch s = runCallbackList conn env ch snap s := by
    unfold execute_callbacks
    rw [hl]
  refine ⟨noRuntimeErr_execute_callbacks conn env ch s, ?_⟩
  obtain ⟨k, hk, _, hinv, hok⟩ := runCallbackList_trace conn env ch snap s
  refine ⟨k, hk, ?_, ?_, ?_⟩
  · rw [hred, hinv]
  · intro s' hs'
    exact hok s' (hred ▸ hs')
  · intro hnd cb
    have hinj : Function.Injective
        (fun c => ({ channel := ch, cb := c, seen := s.last_notification } : Invocation)) := by
      intro a b hab
      simpa using hab
    rw [List.count_map_of_injective _ _ hinj]
    have htnd : (snap.take k).Nodup := hnd.sublist (List.take_sublist k snap)
    exact List.nodup_iff_count_le_one.1 htnd cb

/-- Witness for C2 at a concrete state whose single callback unsubscribes
itself during its own invocation. -/
theorem per_event_reentrant_mutation_safe_witness :
    noRuntimeErr (execute_callbacks noFail (fun _ => [CbAction.unsubOneAct "a" 0]) "a"
      (subscribe_to_channel noFail "a" 0 initState).state) :=
  (per_event_reentrant_mutation_safe noFail (fun _ => [CbAction.unsubOneAct "a" 0]) "a"
    (subscribe_to_channel noFail "a" 0 initState).state [0] (by decide)).1

/-- The invocation list produced by dispatching the snapshot `snap` of
channel `ch` while `last_notification` is `l`. -/
def snapTrace (ch : String) (snap : List Nat) (l : Option Notify) : List Invocation :=
  snap.map (fun cb => { channel := ch, cb := cb, seen := l })

theorem chanTrace_eq_snapTrace (d : List (String × List Nat)) (ch : String)
    (l : Option Notify) (snap : List Nat) (hl : dictLookup d ch = some snap) :
    chanTrace d ch l = snapTrace ch snap l := by
  unfold chanTrace snapTrace
  rw [hl]

theorem snapTrace_count (ch : String) (snap : List Nat) (l : Option Notify)
    (hnd : snap.Nodup) (cb : Nat) (hm : cb ∈ snap) :
    (snapTrace ch snap l).count { channel := ch, cb := cb, seen := l } = 1 := by
  unfold snapTrace
  have hinj : Function.Injective
      (fun c => ({ channel := ch, cb := c, seen := l } : Invocation)) := by
    intro a b hab
    simpa using hab
  rw [List.count_map_of_injective _ _ hinj]
  exact List.count_eq_one_of_mem hnd hm

/-- C6: an event for a channel with no registry entry is skipped silently
(the state is returned unchanged — no error, no invocation); an event for a
registered channel invokes exactly the callbacks of that channel's snapshot,
each exactly once, and every invocation is tagged with that channel — so a
callback registered only for a different channel is never invoked. -/
theorem event_dispatch_exactness (conn : Conn) (env : Env) (ch : String) (s : State)
    (hp : ∀ cb, env cb = []) :
    (dictLookup s.callbacks ch = none → execute_callbacks conn env ch s = .ok s) ∧
    (∀ snap, dictLookup s.callbacks ch = some snap →
      execute_callbacks conn env ch s =
        .ok { s with invoked := s.invoked ++ snapTrace ch snap s.last_notification } ∧
      (snap.Nodup → ∀ cb ∈ snap,
        (snapTrace ch snap s.last_notification).count
          { channel := ch, cb := cb, seen := s.last_notification } = 1) ∧
      (∀ e ∈ snapTrace ch snap s.last_notification, e.channel = ch)) := by
  refine ⟨?_, ?_⟩
  · intro hl
    unfold execute_callbacks
    rw [hl]
  · intro snap hl
    refine ⟨?_, ?_, ?_⟩
    · rw [execute_callbacks_passive conn env hp ch s,
        chanTrace_eq_snapTrace s.callbacks ch s.last_notification snap hl]
    · intro hnd cb hm
      exact snapTrace_count ch snap s.last_notification hnd cb hm
    · intro e he
      unfold snapTrace at he
      simp only [List.mem_map] at he
      obtain ⟨c, _, hc⟩ := he
      rw [← hc]

/-- Witness for C6: a listener with one channel `"a"` holding callback `0`,
dispatching the unregistered channel `"b"`. -/
theorem event_dispatch_exactness_witness :
    execute_callbacks noFail (fun _ => []) "b"
        (subscribe_to_channel noFail "a" 0 initState).state =
      .ok (subscribe_to_channel noFail "a" 0 initState).state :=
  (event_dispatch_exactness noFail (fun _ => []) "b"
    (subscribe_to_channel noFail "a" 0 initState).state (fun _ => rfl)).1 (by decide)

/-- C7: two stream events for the same channel each produce an independent
full dispatch of that channel's callback set (no coalescing); more
generally, on a stream of `n` events for the channel the dispatch trace
holds `n · |snapshot|` invocations and every registered callback is invoked
exactly `n` times. -/
theorem no_event_coalescing (env : Env) (s : State) (ch : String) (snap : List Nat)
    (hp : ∀ cb, env cb = []) (hl : dictLookup s.callbacks ch = some snap)
    (ev1 ev2 : Notify) (h1 : ev1.channel = ch) (h2 : ev2.channel = ch) :
    runNotifications noFail env [ev1, ev2] s =
      .ok { s with last_notification := some ev2,
                   invoked := s.invoked ++
                     (snapTrace ch snap (some ev1) ++ (snapTrace ch snap (some ev2) ++ [])) } ∧
    (∀ events : List Notify, (∀ ev ∈ events, ev.channel = ch) →
      (eventsTrace s.callbacks events).length = events.length * snap.length) ∧
    (∀ events : List Notify, (∀ ev ∈ events, ev.channel = ch) → snap.Nodup →
      ∀ cb ∈ snap,
        (eventsTrace s.callbacks events).countP (fun e => e.cb == cb) = events.length) := by
  refine ⟨?_, ?_, ?_⟩
  · rw [runNotifications_passive noFail env hp [ev1, ev2] s]
    have htr : eventsTrace s.callbacks [ev1, ev2] =
        snapTrace ch snap (some ev1) ++ (snapTrace ch snap (some ev2) ++ []) := by
      show chanTrace s.callbacks ev1.channel (some ev1) ++
          (chanTrace s.callbacks ev2.channel (some ev2) ++ eventsTrace s.callbacks []) = _
      rw [h1, h2, chanTrace_eq_snapTrace s.callbacks ch (some ev1) snap hl,
        chanTrace_eq_snapTrace s.callbacks ch (some ev2) snap hl]
      rfl
    rw [htr]
    have hfin : finalLast s.last_notification [ev1, ev2] = some ev2 := rfl
    rw [hfin]
  · intro events hec
    induction events with
    | nil => simp [eventsTrace]
    | cons ev rest ih =>
      have hev : ev.channel = ch := hec ev (by simp)
      have hct : chanTrace s.callbacks ev.channel (some ev) = snapTrace ch snap (some ev) := by
        rw [hev, chanTrace_eq_snapTrace s.callbacks ch (some ev) snap hl]
      unfold eventsTrace
      rw [List.length_append, hct, ih (fun e he => hec e (by simp [he]))]
      unfold snapTrace
      rw [List.length_map, List.length_cons]
      ring
  · intro events hec hnd cb hm
    induction events with
    | nil => simp [eventsTrace]
    | cons ev rest ih =>
      have hev : ev.channel = ch := hec ev (by simp)
      have hct : chanTrace s.callbacks ev.channel (some ev) = snapTrace ch snap (some ev) := by
        rw [hev, chanTrace_eq_snapTrace s.callbacks ch (some ev) snap hl]
      unfold eventsTrace
      rw [List.countP_append, hct, ih (fun e he => hec e (by simp [he]))]
      have hcnt : (snapTrace ch snap (some ev)).countP (fun e => e.cb == cb)
          = snap.count cb := by
        unfold snapTrace
        rw [List.countP_map]
        rfl
      rw [hcnt, List.count_eq_one_of_mem hnd hm, List.length_cons]
      omega

/-- Witness for C7: channel `"a"` with callback `0` receiving the same
notification twice. -/
theorem no_event_coalescing_witness :
    (eventsTrace (subscribe_to_channel noFail "a" 0 initState).state.callbacks
        [{ channel := "a", payload := "x" }, { channel := "a", payload := "x" }]).length
      = 2 * 1 :=
  (no_event_coalescing (fun _ => []) (subscribe_to_channel noFail "a" 0 initState).state
      "a" [0] (fun _ => rfl) (by decide)
      { channel := "a", payload := "x" } { channel := "a", payload := "x" } rfl rfl).2.1
    [{ channel := "a", payload := "x" }, { channel := "a", payload := "x" }]
    (by intro ev hev; simp at hev; simp [hev])

theorem count_trace_join_zero (l : Option Notify) (d : List (String × List Nat))
    (ch : String) (hch : ch ∉ dictKeys d) (cb : Nat) :
    ((d.map (fun p => snapTrace p.1 p.2 l)).join).count
      { channel := ch, cb := cb, seen := l } = 0 := by
  rw [List.count_eq_zero]
  intro hmem
  rw [List.mem_join] at hmem
  obtain ⟨li, hli, hei⟩ := hmem
  rw [List.mem_map] at hli
  obtain ⟨p, hp, hpl⟩ := hli
  subst hpl
  unfold snapTrace at hei
  rw [List.mem_map] at hei
  obtain ⟨c, _, hc⟩ := hei
  have hpc : p.1 = ch := congrArg Invocation.channel hc
  exact hch (hpc ▸ List.mem_map_of_mem Prod.fst hp)

theorem count_trace_join (l : Option Notify) : ∀ d : List (String × List Nat),
    (dictKeys d).Nodup → ∀ ch v, dictLookup d ch = some v → v.Nodup → ∀ cb ∈ v,
    ((d.map (fun p => snapTrace p.1 p.2 l)).join).count
      { channel := ch, cb := cb, seen := l } = 1 := by
  intro d
  induction d with
  | nil =>
    intro _ ch v hv
    simp [dictLookup] at hv
  | cons q rest ih =>
    obtain ⟨k, w⟩ := q
    intro hk ch v hv hnd cb hm
    have hk' : k ∉ dictKeys rest ∧ (dictKeys rest).Nodup := by
      have : (k :: dictKeys rest).Nodup := hk
      exact List.nodup_cons.1 this
    rw [List.map_cons]
    have hjoin : (snapTrace (k, w).1 (k, w).2 l ::
          (rest.map (fun p => snapTrace p.1 p.2 l))).join
        = snapTrace k w l ++ (rest.map (fun p => snapTrace p.1 p.2 l)).join := rfl
    rw [hjoin, List.count_append]
    by_cases hkc : k = ch
    · subst hkc
      have hvw : v = w := by
        simp [dictLookup] at hv
        exact hv.symm
      subst hvw
      rw [snapTrace_count k v l hnd cb hm, count_trace_join_zero l rest k hk'.1 cb]
    · have hz : (snapTrace k w l).count { channel := ch, cb := cb, seen := l } = 0 := by
        rw [List.count_eq_zero]
        intro hmem
        unfold snapTrace at hmem
        rw [List.mem_map] at hmem
        obtain ⟨c, _, hc⟩ := hmem
        exact hkc (congrArg Invocation.channel hc)
      rw [hz]
      have hv' : dictLookup rest ch = some v := by
        simpa [dictLookup, hkc] using hv
      rw [ih hk'.2 ch v hv' hnd cb hm]

theorem eventsTrace_channels (d : List (String × List Nat)) :
    ∀ (events : List Notify) (e : Invocation), e ∈ eventsTrace d events →
      ∃ ev ∈ events, e.channel = ev.channel := by
  intro events
  induction events with
  | nil =>
    intro e he
    simp [eventsTrace] at he
  | cons ev rest ih =>
    intro e he
    unfold eventsTrace at he
    rcases List.mem_append.1 he with h | h
    · refine ⟨ev, by simp, ?_⟩
      unfold chanTrace at h
      cases hl : dictLookup d ev.channel with
      | none =>
        rw [hl] at h
        simp at h
      | some snap =>
        rw [hl] at h
        rw [List.mem_map] at h
        obtain ⟨c, _, hc⟩ := h
        rw [← hc]
    · obtain ⟨ev', hev', hch⟩ := ih e h
      exact ⟨ev', by simp [hev'], hch⟩

/-- C3: with `initial_run = true`, `start` first performs the full initial
pass — every registration `(channel, callback)` present before the call is
invoked exactly once, and all those invocations precede every stream-event
invocation in the trace, also when the stream is empty; with
`initial_run = false` there is no initial pass, and every invocation that
does occur belongs to a stream event for its channel — no callback runs
until an event for its channel arrives. -/
theorem initial_run_semantics (env : Env) (s : State)
    (hp : ∀ cb, env cb = []) (hk : (dictKeys s.callbacks).Nodup) :
    (∀ events, start noFail env true events s =
      .ok { s with last_notification := finalLast s.last_notification events,
                   invoked := s.invoked ++ initialTrace s ++ eventsTrace s.callbacks events }) ∧
    (∀ ch v, dictLookup s.callbacks ch = some v → v.Nodup → ∀ cb ∈ v,
      (initialTrace s).count { channel := ch, cb := cb, seen := s.last_notification } = 1) ∧
    (∀ events, start noFail env false events s =
      .ok { s with last_notification := finalLast s.last_notification events,
                   invoked := s.invoked ++ eventsTrace s.callbacks events }) ∧
    (∀ events e, e ∈ eventsTrace s.callbacks events → ∃ ev ∈ events, e.channel = ev.channel) := by
  refine ⟨?_, ?_, ?_, ?_⟩
  · intro events
    unfold start
    have hb : (if (true : Bool) then execute_all_callbacks noFail env s else Res.ok s)
        = execute_all_callbacks noFail env s := rfl
    rw [hb, execute_all_callbacks_passive noFail env hp s hk, Res.bind_ok,
      runNotifications_passive noFail env hp events _]
  · intro ch v hv hnd cb hm
    have hit : initialTrace s
        = ((s.callbacks.map (fun p => snapTrace p.1 p.2 s.last_notification)).join) := rfl
    rw [hit]
    exact count_trace_join s.last_notification s.callbacks hk ch v hv hnd cb hm
  · intro events
    unfold start
    have hb : (if (false : Bool) then execute_all_callbacks noFail env s else Res.ok s)
        = Res.ok s := rfl
    rw [hb, Res.bind_ok, runNotifications_passive noFail env hp events s]
  · intro events e he
    exact eventsTrace_channels s.callbacks events e he

/-- A sample reachable state with channel `"a"` holding callback `0`. -/
def sampleState : State := (subscribe_to_channel noFail "a" 0 initState).state

/-- Witness for C3 at the sample state with an empty stream. -/
theorem initial_run_semantics_witness :
    start noFail (fun _ => []) true [] sampleState =
      .ok { sampleState with
            last_notification := finalLast sampleState.last_notification [],
            invoked := sampleState.invoked ++ initialTrace sampleState ++
              eventsTrace sampleState.callbacks [] } :=
  (initial_run_semantics (fun _ => []) sampleState (fun _ => rfl) (by decide)).1 []

/-- C10: a freshly constructed listener has `last_notification = none`; the
entire initial pass leaves it `none`, and every invocation recorded during
the initial pass observed `none`; it is the recording of a stream event that
first makes it non-`none` — the event is stored before its callbacks run. -/
theorem last_notification_lifecycle (env : Env) (conn : Conn) (s : State) (ev : Notify)
    (h0 : s.last_notification = none) :
    initState.last_notification = none ∧
    (execute_all_callbacks conn env s).state.last_notification = none ∧
    (∃ t, (execute_all_callbacks conn env s).state.invoked = s.invoked ++ t ∧
      ∀ e ∈ t, e.seen = none) ∧
    (handleNotification conn env ev s).state.last_notification = some ev := by
  obtain ⟨hlast, t, hinv, hseen⟩ := execute_all_callbacks_trace conn env s
  refine ⟨rfl, by rw [hlast, h0], ⟨t, hinv, ?_⟩, ?_⟩
  · intro e he
    rw [hseen e he, h0]
  · unfold handleNotification
    exact (execute_callbacks_trace conn env ev.channel
      { s with last_notification := some ev }).1

/-- Witness for C10 on a fresh listener. -/
theorem last_notification_lifecycle_witness :
    (execute_all_callbacks noFail (fun _ => []) initState).state.last_notification = none :=
  (last_notification_lifecycle (fun _ => []) noFail initState
    { channel := "a", payload := "p" } rfl).2.1
